import Mathlib

/-!
Shallow embedding of `scriptutil/_shell.py`: the output-multiplex loop
(`RunningCommand._read`), the `RunningCommand` consumption surface, the
exception constructors, the argument-vector builder of `Command.__call__`,
and `RunningCommand.parse`.  Pipe bytes are modelled as `Char` lists (the
streams of the claims are text; UTF-8 decoding is the identity at this
granularity).
-/

namespace Scriptutil

/-- Bound on a single pipe read: the source reads `x.read(255)`. -/
def CHUNK_SIZE : Nat := 255

/-- Exit codes exempted from failure classification
(`IGNORED_ERROR_CODES = [-15, -2]` in the source). -/
def IGNORED_ERROR_CODES : List Int := [-15, -2]

/-- State of the multiplex loop `RunningCommand._read`: the bytes the child
still has to deliver on each pipe (`out`, `err`) and the two append-only
buffers `self._output` (`obuf`) and `self._error` (`ebuf`). -/
structure MuxState where
  out : List Char
  err : List Char
  obuf : List Char
  ebuf : List Char
deriving DecidableEq, Repr

/-- Readiness of one pipe as reported by `select`: readable when some of its
remaining content is currently available in the OS buffer (`0 < avail`) or
when it is at end-of-stream (no content remains). -/
def readyS (avail : Nat) (rem : List Char) : Bool :=
  decide (0 < avail) || rem.isEmpty

/-- Result of `x.read(255)` for one pipe in one round of the loop: a stream
that is not ready is not read and contributes `b""`; a ready stream yields up
to `CHUNK_SIZE` of its available bytes, the empty chunk exactly at
end-of-stream. -/
def chunkS (avail : Nat) (rem : List Char) : List Char :=
  if readyS avail rem then rem.take (min avail CHUNK_SIZE) else []

/-- A readiness interleaving: for each loop state, how many bytes of each
stream's remaining content are currently available in its pipe when `select`
returns. -/
def MuxSched : Type := MuxState → Nat × Nat

/-- The pair of chunks read in one round (`result` in `_read`). -/
def muxChunks (sched : MuxSched) (s : MuxState) : List Char × List Char :=
  (chunkS (sched s).1 s.out, chunkS (sched s).2 s.err)

/-- State after one round: read bytes leave the streams and are appended to
their respective buffers (`array.extend(res)`). -/
def muxNext (s : MuxState) (c : List Char × List Char) : MuxState :=
  ⟨s.out.drop c.1.length, s.err.drop c.2.length, s.obuf ++ c.1, s.ebuf ++ c.2⟩

/-- The multiplex loop `RunningCommand._read`, parametrised by a readiness
interleaving.  Returns the list of yielded `(stdout chunk, stderr chunk)`
pairs and the final state.  Faithful to the source, the loop stops as soon as
every stream read in a round returned zero bytes
(`all(map(lambda x: len(x) == 0, result))`) - streams that were not ready
contribute a zero-length result without being read. -/
def readMux (sched : MuxSched) (s : MuxState) :
    List (List Char × List Char) × MuxState :=
  let c := muxChunks sched s
  if h : c.1.isEmpty && c.2.isEmpty then ([], s)
  else
    let r := readMux sched (muxNext s c)
    (c :: r.1, r.2)
termination_by s.out.length + s.err.length
decreasing_by
  simp only [muxNext, muxChunks, List.length_drop]
  have hle1 : (chunkS (sched s).1 s.out).length ≤ s.out.length := by
    unfold chunkS
    split
    · simp only [List.length_take]
      omega
    · simp
  have hle2 : (chunkS (sched s).2 s.err).length ≤ s.err.length := by
    unfold chunkS
    split
    · simp only [List.length_take]
      omega
    · simp
  have hne : ¬((chunkS (sched s).1 s.out).isEmpty = true
      ∧ (chunkS (sched s).2 s.err).isEmpty = true) := by
    simpa [muxChunks, Bool.and_eq_true] using h
  have hlen : (chunkS (sched s).1 s.out).length ≠ 0
      ∨ (chunkS (sched s).2 s.err).length ≠ 0 := by
    by_contra hq
    push_neg at hq
    exact hne ⟨List.isEmpty_iff_length_eq_zero.mpr hq.1,
      List.isEmpty_iff_length_eq_zero.mpr hq.2⟩
  omega

/-- Full-availability interleaving: every remaining byte of each stream is
already in its pipe whenever `select` is consulted (in particular the case
once the child has exited). -/
def fullSched : MuxSched := fun s => (s.out.length, s.err.length)

/-- Byte-level `splitlines`, restricted to LF line breaks (the source applies
Python `bytes.splitlines`, which additionally treats CR and CRLF as breaks;
the claims only exercise LF).  No trailing empty line is produced for a
trailing newline. -/
def splitlinesL : List Char → List (List Char)
  | [] => []
  | c :: rest =>
    if c = '\n' then [] :: splitlinesL rest
    else
      match splitlinesL rest with
      | [] => [[c]]
      | line :: lines => (c :: line) :: lines

/-- Chunks yielded by `__iter__` on a still-open command: the loop's stdout
chunks with the empty ones skipped (`if len(line) > 0`), under the
full-availability interleaving. -/
def iterOpenChunks (o e : List Char) : List (List Char) :=
  ((readMux fullSched ⟨o, e, [], []⟩).1.map Prod.fst).filter fun c => !c.isEmpty

/-- Items of `__iter__` on a still-open command, decoded. -/
def iterOpenItems (o e : List Char) : List String :=
  (iterOpenChunks o e).map String.mk

/-- Items of `__iter__` on a closed command: `self._output.splitlines()`,
each line decoded. -/
def iterClosedItems (output : List Char) : List String :=
  (splitlinesL output).map String.mk

/-- Python `str.replace` for the single-character pattern used by the source:
`self.error.replace("\n", " ")` maps every newline to a space. -/
def replaceNewlines (s : String) : String :=
  String.mk (s.data.map fun c => if c = '\n' then ' ' else c)

/-- `ShellCommandException`: `error` is the decoded captured stderr, `msg`
the argument passed to `Exception.__init__` (the short message). -/
structure ShellCommandExceptionS where
  error : String
  msg : String
deriving DecidableEq, Repr

/-- `ShellCommandException.__init__`: stores the decoded stderr and flattens
newlines to spaces for the short message. -/
def mkShellCommandException (stderrText : String) : ShellCommandExceptionS :=
  ⟨stderrText, replaceNewlines stderrText⟩

/-- `CommandIgnoredException`: carries only its message. -/
structure CommandIgnoredExceptionS where
  msg : String
deriving DecidableEq, Repr

/-- `CommandIgnoredException.__init__`. -/
def mkCommandIgnoredException (commandName : String) : CommandIgnoredExceptionS :=
  ⟨"Command " ++ commandName ++ " disposed without being waited"⟩

/-- A `RunningCommand`: the closed flag, the two pipe handles, the two
captured buffers, the bytes the child still has to deliver on each pipe, the
process exit code, and the display name. -/
structure RC where
  closed : Bool
  stdoutOpen : Bool
  stderrOpen : Bool
  output : List Char
  errbuf : List Char
  pendingOut : List Char
  pendingErr : List Char
  returncode : Int
  name : String
deriving DecidableEq, Repr

/-- `RunningCommand._wait`: when not closed, run the multiplex loop to
completion, which appends all remaining bytes of each stream to its buffer
(the chunk-level behaviour of that loop is modelled by `readMux`). -/
def waitDrain (rc : RC) : RC :=
  if rc.closed then rc
  else
    { rc with
      output := rc.output ++ rc.pendingOut
      errbuf := rc.errbuf ++ rc.pendingErr
      pendingOut := []
      pendingErr := [] }

/-- `RunningCommand._close`: close both pipe handles, then set the flag. -/
def closeRC (rc : RC) : RC :=
  if rc.closed then rc
  else { rc with stdoutOpen := false, stderrOpen := false, closed := true }

/-- `RunningCommand._read_output`. -/
def readOutputOp (rc : RC) : List Char × RC :=
  ((waitDrain rc).output, waitDrain rc)

/-- `RunningCommand._read_error`. -/
def readErrorOp (rc : RC) : List Char × RC :=
  ((waitDrain rc).errbuf, waitDrain rc)

/-- `RunningCommand._check_exception`: drain, collect the exit status, raise
`ShellCommandException` on a non-zero non-ignored code (with the fully
drained stderr), and close in every case (the `finally` block). -/
def checkExceptionOp (rc : RC) : Except ShellCommandExceptionS Unit × RC :=
  let rc1 := waitDrain rc
  if rc1.returncode ≠ 0 ∧ rc1.returncode ∉ IGNORED_ERROR_CODES then
    let r := readErrorOp rc1
    (.error (mkShellCommandException (String.mk r.1)), closeRC r.2)
  else
    (.ok (), closeRC rc1)

/-- `RunningCommand._check`: drain, close, report whether the exit code is
zero; contains no raise. -/
def checkOp (rc : RC) : Bool × RC :=
  let rc1 := waitDrain rc
  (rc1.returncode == 0, closeRC rc1)

/-- `RunningCommand.__bool__`: routes through `_check`, which has no raise
path, so the result is always `ok`. -/
def boolCoerce (rc : RC) : Except ShellCommandExceptionS Bool × RC :=
  (.ok (checkOp rc).1, (checkOp rc).2)

/-- `RunningCommand.__bytes__`: read the full output, then run
`_check_exception` in a `finally`; an exception discards the result. -/
def bytesCoerce (rc : RC) : Except ShellCommandExceptionS (List Char) × RC :=
  let r := readOutputOp rc
  let c := checkExceptionOp r.2
  match c.1 with
  | .ok _ => (.ok r.1, c.2)
  | .error e => (.error e, c.2)

/-- `RunningCommand.__str__`: the decoded `__bytes__`. -/
def strCoerce (rc : RC) : Except ShellCommandExceptionS String × RC :=
  let b := bytesCoerce rc
  match b.1 with
  | .ok l => (.ok (String.mk l), b.2)
  | .error e => (.error e, b.2)

/-- `RunningCommand.wait`: exactly `_check_exception`. -/
def waitOp (rc : RC) : Except ShellCommandExceptionS Unit × RC :=
  checkExceptionOp rc

/-- `RunningCommand.print`: the console writes are outside the model; its
state effect is the loop (or buffered replay) followed by `_check_exception`
in a `finally`, which is `checkExceptionOp` on either path. -/
def printOp (rc : RC) : Except ShellCommandExceptionS Unit × RC :=
  checkExceptionOp rc

/-- `RunningCommand.__iter__`, consumed to exhaustion.  Open: yield the
decoded nonempty stdout chunks of the multiplex loop, leaving the drained
state, then `_check_exception` in the `finally`.  Closed: replay
`self._output.splitlines()`, then `_check_exception` likewise. -/
def iterOp (rc : RC) : Except ShellCommandExceptionS (List String) × RC :=
  if rc.closed then
    let c := checkExceptionOp rc
    match c.1 with
    | .ok _ => (.ok (iterClosedItems rc.output), c.2)
    | .error e => (.error e, c.2)
  else
    let items := iterOpenItems rc.pendingOut rc.pendingErr
    let c := checkExceptionOp (waitDrain rc)
    match c.1 with
    | .ok _ => (.ok items, c.2)
    | .error e => (.error e, c.2)

/-- `RunningCommand.__exit__`: run `_check_exception` only when still open. -/
def exitOp (rc : RC) : Except ShellCommandExceptionS Unit × RC :=
  if rc.closed then (.ok (), rc) else checkExceptionOp rc

/-- `RunningCommand.__del__`: when still open, run `_check_exception` (which
may surface a `ShellCommandException`) and otherwise raise
`CommandIgnoredException` naming the command. -/
def delOp (rc : RC) :
    Except (ShellCommandExceptionS ⊕ CommandIgnoredExceptionS) Unit × RC :=
  if rc.closed then (.ok (), rc)
  else
    let c := checkExceptionOp rc
    match c.1 with
    | .error e => (.error (.inl e), c.2)
    | .ok _ => (.error (.inr (mkCommandIgnoredException rc.name)), c.2)

/-- Reachability invariant of the source: the closed flag is only ever set by
`_close`, which closes both handles first. -/
def WellFormedRC (rc : RC) : Prop :=
  rc.closed = true → rc.stdoutOpen = false ∧ rc.stderrOpen = false

/-- Both pipe handles closed and the closed flag set. -/
def FullyClosed (rc : RC) : Prop :=
  rc.closed = true ∧ rc.stdoutOpen = false ∧ rc.stderrOpen = false

/-- `shell_name`: translate underscores to hyphens. -/
def shellName (s : String) : String :=
  String.mk (s.data.map fun c => if c = '_' then '-' else c)

/-- Scalar argument values of `Command.__call__` (`str`, `int`, `bool`,
`None`; the claims do not exercise float positionals). -/
inductive PyVal where
  | vstr (s : String)
  | vint (n : Int)
  | vbool (b : Bool)
  | vnone
deriving DecidableEq, Repr

/-- Python `str()` on the scalar values above. -/
def pyStr : PyVal → String
  | .vstr s => s
  | .vint n => toString n
  | .vbool b => if b then "True" else "False"
  | .vnone => "None"

/-- A keyword-option value: a scalar or a list of scalars
(`values = v if isinstance(v, list) else [v]`). -/
inductive KwVal where
  | scalar (v : PyVal)
  | vlist (l : List PyVal)
deriving DecidableEq, Repr

/-- Flag spelling (`prefix + key` in the source): the key after `shell_name`,
prefixed with one hyphen when a single character and two otherwise. -/
def flagOf (k : String) : String :=
  (if (shellName k).length = 1 then "-" else "--") ++ shellName k

/-- Value separator (`suffix` in the source): empty for single-character
flags, `=` for long flags. -/
def sepOf (k : String) : String :=
  if (shellName k).length = 1 then "" else "="

/-- Encoding of one option value: `None` is skipped, a boolean contributes
the bare flag, any other scalar contributes the flag joined to `str(value)`
through the separator. -/
def encodeValue (k : String) (v : PyVal) : Option String :=
  match v with
  | .vnone => none
  | .vbool _ => some (flagOf k)
  | .vstr s => some (flagOf k ++ sepOf k ++ s)
  | .vint n => some (flagOf k ++ sepOf k ++ toString n)

/-- Strings appended for one keyword option: each element of a list value
(or the single scalar) in order, with `None` elements skipped. -/
def encodeEntry (k : String) (v : KwVal) : List String :=
  (match v with
   | .scalar x => [x]
   | .vlist l => l).filterMap (encodeValue k)

/-- Positional argument: skipped when `None`, stringified otherwise. -/
def posStr : PyVal → Option String
  | .vnone => none
  | v => some (pyStr v)

/-- The `command` list built by `Command.__call__`: the command name, then
the encoded keyword options in order, then the stringified positional
arguments. -/
def buildArgv (commandName : String) (kwargs : List (String × KwVal))
    (args : List PyVal) : List String :=
  commandName :: ((kwargs.flatMap fun p => encodeEntry p.1 p.2)
    ++ args.filterMap posStr)

/-- Boolean list-prefix test on characters. -/
def startsWithL (p s : List Char) : Bool :=
  s.take p.length == p

/-- Whitespace tokenisation of one line, Python `str.split()`: splits on runs
of whitespace and produces no empty tokens (restricted to the ASCII
whitespace recognised by `Char.isWhitespace`). -/
def tokensAux : List Char → List Char → List (List Char)
  | [], [] => []
  | [], acc => [acc.reverse]
  | c :: r, acc =>
    if c.isWhitespace then
      if acc.isEmpty then tokensAux r [] else acc.reverse :: tokensAux r []
    else tokensAux r (c :: acc)

/-- Tokens of one line. -/
def tokensOf (line : List Char) : List (List Char) :=
  tokensAux line []

/-- Decimal digit run evaluated as a natural number; `none` when empty or
containing a non-digit. -/
def digitsVal (l : List Char) : Option Nat :=
  if l ≠ [] ∧ l.all (·.isDigit) then
    some (l.foldl (fun a c => a * 10 + (c.toNat - Char.toNat '0')) 0)
  else none

/-- Python `int(token)` on a whitespace-free token: an optional sign followed
by decimal digits (the underscore digit grouping and non-ASCII digits Python
additionally accepts are not modelled; no claim exercises them). -/
def intParse (s : String) : Option Int :=
  match s.data with
  | '+' :: rest => (digitsVal rest).map Int.ofNat
  | '-' :: rest => (digitsVal rest).map fun n => -(Int.ofNat n)
  | l => (digitsVal l).map Int.ofNat

/-- Drop one leading sign character. -/
def stripSign : List Char → List Char
  | '+' :: r => r
  | '-' :: r => r
  | l => l

/-- Nonempty all-digit run. -/
def allDigits (l : List Char) : Bool :=
  !l.isEmpty && l.all (·.isDigit)

/-- Exponent part of a float literal: empty, or `e`/`E` with signed digits. -/
def expOk : List Char → Bool
  | [] => true
  | 'e' :: r => allDigits (stripSign r)
  | 'E' :: r => allDigits (stripSign r)
  | _ => false

/-- Mantissa of a float literal: digits with an optional fractional part, or
a leading point with digits, followed by an optional exponent. -/
def mantissaOk (l : List Char) : Bool :=
  let d1 := l.takeWhile (·.isDigit)
  let r1 := l.dropWhile (·.isDigit)
  match r1 with
  | '.' :: r2 =>
    let d2 := r2.takeWhile (·.isDigit)
    let r3 := r2.dropWhile (·.isDigit)
    (!d1.isEmpty || !d2.isEmpty) && expOk r3
  | r1' => !d1.isEmpty && expOk r1'

/-- Python `float(token)` acceptance on a whitespace-free token (the textual
`inf`/`nan` spellings are not modelled; no claim exercises them). -/
def isFloatTok (s : String) : Bool :=
  mantissaOk (stripSign s.data)

/-- A parsed scalar: integer, float, or text.  A float is carried as the
token it was parsed from; the claims compare classifications, never float
arithmetic, and floating-point values have no exact Lean counterpart. -/
inductive BaseV where
  | bint (n : Int)
  | bfloat (tok : String)
  | bstr (s : String)
deriving DecidableEq, Repr

/-- Token coercion of `parse`: `int(token)` first, then `float(token)`, else
the text itself. -/
def coerceToken (t : String) : BaseV :=
  match intParse t with
  | some n => .bint n
  | none => if isFloatTok t then .bfloat t else .bstr t

/-- A per-line value: the scalar of a one-token line or the ordered row of a
multi-token line. -/
inductive PItem where
  | pbase (v : BaseV)
  | prow (r : List BaseV)
deriving DecidableEq, Repr

/-- The result of `parse`: the empty marker `None`, a single value, or the
ordered sequence of per-line values. -/
inductive Parsed where
  | pnone
  | pvalue (v : PItem)
  | pseq (l : List PItem)
deriving DecidableEq, Repr

/-- One line of `parse`: coerce each token; a line with no tokens contributes
nothing, one token the scalar, several tokens the row. -/
def parseLineVal (line : List Char) : Option PItem :=
  match (tokensOf line).map (fun t => coerceToken (String.mk t)) with
  | [] => none
  | [v] => some (.pbase v)
  | vs => some (.prow vs)

/-- The `result` list accumulated by `parse` over the split lines. -/
def lineValues (output : String) : List PItem :=
  (splitlinesL output.data).filterMap parseLineVal

/-- `RunningCommand.parse` on the fully drained text. -/
def parseOutput (output : String) : Parsed :=
  match lineValues output with
  | [] => .pnone
  | [v] => .pvalue v
  | vs => .pseq vs

/-- Working directory the child is spawned with.  `Command.__call__` declares
`_cwd: str = getcwd()`: Python evaluates the default once, when the function
object is created at module import, so a call that omits `_cwd` uses the
import-time directory.  The `_cwdAtCall` argument is deliberately unused,
mirroring that the directory current at call time does not enter the
launch. -/
def spawnedCwd (explicitCwd : Option String) (cwdAtImport : String)
    (_cwdAtCall : String) : String :=
  match explicitCwd with
  | some c => c
  | none => cwdAtImport

/-- The exception `_check_exception` raises for a failed command that is
still open: it carries the decoded fully drained stderr. -/
def drainedError (rc : RC) : ShellCommandExceptionS :=
  mkShellCommandException (String.mk (rc.errbuf ++ rc.pendingErr))

/-- A freshly launched command that exited with code 0 and produced no
output. -/
def rcZero : RC :=
  ⟨false, true, true, [], [], [], [], 0, "cmd"⟩

/-- A freshly launched command that exited with code 2 after writing
"boom" and a newline to stderr. -/
def rcBoom : RC :=
  ⟨false, true, true, [], [], [], ['b', 'o', 'o', 'm', '\n'], 2, "cmd"⟩

theorem chunkS_le_rem (a : Nat) (rem : List Char) :
    (chunkS a rem).length ≤ rem.length := by
  unfold chunkS
  split
  · simp only [List.length_take]
    omega
  · simp

theorem chunkS_le_chunk_size (a : Nat) (rem : List Char) :
    (chunkS a rem).length ≤ CHUNK_SIZE := by
  unfold chunkS
  split
  · simp only [List.length_take]
    omega
  · simp

theorem chunkS_nil (a : Nat) : chunkS a [] = [] := by
  unfold chunkS
  split <;> simp

theorem chunkS_full (l : List Char) :
    chunkS l.length l = l.take (min l.length CHUNK_SIZE) := by
  unfold chunkS readyS
  cases l <;> simp

theorem take_drop_self (k : Nat) (l : List Char) :
    l.take k ++ l.drop (l.take k).length = l := by
  induction l generalizing k with
  | nil => simp
  | cons c t ih =>
    cases k with
    | zero => simp
    | succ m =>
      simp only [List.take_succ_cons, List.length_cons, List.drop_succ_cons,
        List.cons_append]
      rw [ih m]

theorem chunkS_prefix (l : List Char) :
    chunkS l.length l ++ l.drop (chunkS l.length l).length = l := by
  rw [chunkS_full]
  exact take_drop_self _ l

theorem chunkS_full_isEmpty (l : List Char) :
    ((chunkS l.length l).isEmpty = true) ↔ l = [] := by
  rw [chunkS_full]
  cases l with
  | nil => simp
  | cons c t =>
    simp [List.isEmpty_iff, List.take_eq_nil_iff, CHUNK_SIZE]

theorem readMux_unfold (sched : MuxSched) (s : MuxState) :
    readMux sched s =
      if (muxChunks sched s).1.isEmpty && (muxChunks sched s).2.isEmpty
      then ([], s)
      else
        ((muxChunks sched s) :: (readMux sched (muxNext s (muxChunks sched s))).1,
          (readMux sched (muxNext s (muxChunks sched s))).2) := by
  rw [readMux]
  split <;> rfl

theorem readMux_step_true (sched : MuxSched) (s : MuxState)
    (hc : ((muxChunks sched s).1.isEmpty && (muxChunks sched s).2.isEmpty) = true) :
    readMux sched s = ([], s) := by
  rw [readMux_unfold, if_pos hc]

theorem readMux_step_false (sched : MuxSched) (s : MuxState)
    (hc : ((muxChunks sched s).1.isEmpty && (muxChunks sched s).2.isEmpty) = false) :
    readMux sched s =
      ((muxChunks sched s) :: (readMux sched (muxNext s (muxChunks sched s))).1,
        (readMux sched (muxNext s (muxChunks sched s))).2) := by
  rw [readMux_unfold, if_neg (by simp [hc])]

theorem muxNext_le (sched : MuxSched) (s : MuxState)
    (hc : ¬((muxChunks sched s).1.isEmpty && (muxChunks sched s).2.isEmpty) = true) :
    (muxNext s (muxChunks sched s)).out.length
      + (muxNext s (muxChunks sched s)).err.length + 1
      ≤ s.out.length + s.err.length := by
  have hle1 := chunkS_le_rem (sched s).1 s.out
  have hle2 := chunkS_le_rem (sched s).2 s.err
  have hne : ¬((muxChunks sched s).1.isEmpty = true
      ∧ (muxChunks sched s).2.isEmpty = true) := by
    simpa [Bool.and_eq_true] using hc
  have hlen : (muxChunks sched s).1.length ≠ 0
      ∨ (muxChunks sched s).2.length ≠ 0 := by
    by_contra hq
    push_neg at hq
    exact hne ⟨List.isEmpty_iff_length_eq_zero.mpr hq.1,
      List.isEmpty_iff_length_eq_zero.mpr hq.2⟩
  simp only [muxNext, muxChunks, List.length_drop] at *
  omega

theorem readMux_buffers_aux (n : Nat) : ∀ (sched : MuxSched) (s : MuxState),
    s.out.length + s.err.length ≤ n →
    (readMux sched s).2.obuf = s.obuf ++ ((readMux sched s).1.map Prod.fst).join
    ∧ (readMux sched s).2.ebuf = s.ebuf ++ ((readMux sched s).1.map Prod.snd).join := by
  induction n with
  | zero =>
    intro sched s hs
    have ho : s.out = [] := List.length_eq_zero.mp (by omega)
    have he : s.err = [] := List.length_eq_zero.mp (by omega)
    have hc : ((muxChunks sched s).1.isEmpty && (muxChunks sched s).2.isEmpty) = true := by
      simp [muxChunks, ho, he, chunkS_nil]
    rw [readMux_step_true sched s hc]
    simp
  | succ n ih =>
    intro sched s hs
    by_cases hc : ((muxChunks sched s).1.isEmpty && (muxChunks sched s).2.isEmpty) = true
    · rw [readMux_step_true sched s hc]
      simp
    · have hdec := muxNext_le sched s hc
      obtain ⟨ih1, ih2⟩ := ih sched (muxNext s (muxChunks sched s)) (by omega)
      rw [readMux_step_false sched s (by simpa using hc)]
      constructor
      · dsimp only
        rw [ih1]
        simp [muxNext, List.append_assoc]
      · dsimp only
        rw [ih2]
        simp [muxNext, List.append_assoc]

theorem readMux_buffers (sched : MuxSched) (s : MuxState) :
    (readMux sched s).2.obuf = s.obuf ++ ((readMux sched s).1.map Prod.fst).join
    ∧ (readMux sched s).2.ebuf = s.ebuf ++ ((readMux sched s).1.map Prod.snd).join :=
  readMux_buffers_aux (s.out.length + s.err.length) sched s (le_refl _)

theorem readMux_full_aux (n : Nat) : ∀ s : MuxState,
    s.out.length + s.err.length ≤ n →
    (readMux fullSched s).2 = ⟨[], [], s.obuf ++ s.out, s.ebuf ++ s.err⟩ := by
  induction n with
  | zero =>
    intro s hs
    obtain ⟨o, e, ob, eb⟩ := s
    simp only at hs
    have ho : o = [] := List.length_eq_zero.mp (by omega)
    have he : e = [] := List.length_eq_zero.mp (by omega)
    subst ho he
    rw [readMux_step_true _ _ (by simp [muxChunks, chunkS_nil, fullSched])]
    simp
  | succ n ih =>
    intro s hs
    obtain ⟨o, e, ob, eb⟩ := s
    have hmc : muxChunks fullSched ⟨o, e, ob, eb⟩
        = (chunkS o.length o, chunkS e.length e) := rfl
    by_cases hc : ((muxChunks fullSched ⟨o, e, ob, eb⟩).1.isEmpty
        && (muxChunks fullSched ⟨o, e, ob, eb⟩).2.isEmpty) = true
    · have hoe : o = [] ∧ e = [] := by
        rw [hmc] at hc
        simp only [Bool.and_eq_true] at hc
        exact ⟨(chunkS_full_isEmpty o).mp hc.1, (chunkS_full_isEmpty e).mp hc.2⟩
      obtain ⟨ho, he⟩ := hoe
      subst ho he
      rw [readMux_step_true _ _ hc]
      simp
    · have hdec := muxNext_le fullSched ⟨o, e, ob, eb⟩ hc
      have ihs := ih (muxNext ⟨o, e, ob, eb⟩ (muxChunks fullSched ⟨o, e, ob, eb⟩))
        (by simp only at hdec hs ⊢; omega)
      rw [readMux_step_false _ _ (by simpa using hc)]
      dsimp only
      rw [ihs, hmc]
      simp [muxNext, List.append_assoc, chunkS_prefix o, chunkS_prefix e]

theorem readMux_full (s : MuxState) :
    (readMux fullSched s).2 = ⟨[], [], s.obuf ++ s.out, s.ebuf ++ s.err⟩ :=
  readMux_full_aux (s.out.length + s.err.length) s (le_refl _)

/-- C1 (corrected): the multiplex loop reads chunks of at most `CHUNK_SIZE`
bytes and only from ready streams, appends each chunk to its stream's
buffer, and stops as soon as every ready stream returns a zero-length read;
under any interleaving in which each stream's remaining bytes are already
available whenever `select` is consulted - in particular once the child has
exited - the loop terminates with both streams at end-of-stream and the
buffers holding the child's entire stdout and stderr. -/
theorem multiplex_loop_spec :
    (∀ (a : Nat) (rem : List Char), chunkS a rem = [] ∨ readyS a rem = true)
    ∧ (∀ (a : Nat) (rem : List Char), (chunkS a rem).length ≤ CHUNK_SIZE)
    ∧ (∀ (sched : MuxSched) (s : MuxState),
        (readMux sched s).2.obuf
            = s.obuf ++ ((readMux sched s).1.map Prod.fst).join
        ∧ (readMux sched s).2.ebuf
            = s.ebuf ++ ((readMux sched s).1.map Prod.snd).join)
    ∧ (∀ o e : List Char,
        (readMux fullSched ⟨o, e, [], []⟩).2 = ⟨[], [], o, e⟩) := by
  refine ⟨?_, chunkS_le_chunk_size, readMux_buffers, ?_⟩
  · intro a rem
    unfold chunkS
    by_cases hr : readyS a rem = true
    · right
      exact hr
    · left
      rw [if_neg hr]
  · intro o e
    have h := readMux_full ⟨o, e, [], []⟩
    simpa using h

/-- C1 counterexample: with stdout already at end-of-stream and stderr's
content not yet available in its pipe - a valid `select` outcome, since at
least one stream is ready - the loop exits at once and leaves stderr
undrained, refuting both "repeats until both streams have reported
end-of-stream" and the completeness of the stderr buffer when the loop
finishes. -/
theorem multiplex_loop_cex :
    (readyS 0 ([] : List Char) || readyS 0 ['x']) = true
    ∧ readMux (fun _ => (0, 0)) ⟨[], ['x'], [], []⟩ = ([], ⟨[], ['x'], [], []⟩)
    ∧ (⟨[], ['x'], [], []⟩ : MuxState).ebuf ≠ ['x']
    ∧ (⟨[], ['x'], [], []⟩ : MuxState).err ≠ [] := by
  refine ⟨by decide, ?_, by decide, by decide⟩
  exact readMux_step_true _ _ (by decide)

theorem join_filter_nonempty (l : List (List Char)) :
    (l.filter fun c => !c.isEmpty).join = l.join := by
  induction l with
  | nil => simp
  | cons c t ih =>
    cases c with
    | nil => simpa using ih
    | cons x xs => simpa using ih

theorem splitlinesL_line (l t : List Char) (h : l.contains '\n' = false) :
    splitlinesL (l ++ '\n' :: t) = l :: splitlinesL t := by
  induction l with
  | nil => simp [splitlinesL]
  | cons c cs ih =>
    have hp : ¬(c = '\n') ∧ cs.contains '\n' = false := by
      constructor
      · intro hcn
        subst hcn
        simp [List.contains_cons] at h
      · by_cases hcs : cs.contains '\n' = false
        · exact hcs
        · exfalso
          simp [List.contains_cons] at h
          simp [h.2] at hcs
    simp only [List.cons_append, splitlinesL, if_neg hp.1, List.append_eq]
    rw [ih hp.2]

/-- C5 (corrected): iterating a still-open RunningCommand yields the decoded
nonempty stdout chunks produced by the multiplex loop - whose concatenation
is the command's entire stdout - while iterating after closure replays the
buffered stdout split line by line (terminators stripped); the two cover the
same stdout bytes but are not the same item sequence. -/
theorem iter_open_closed_spec :
    (∀ o e : List Char, (iterOpenChunks o e).join = o)
    ∧ (∀ output : List Char,
        iterClosedItems output = (splitlinesL output).map String.mk)
    ∧ (∀ ls : List (List Char), (ls.all fun l => !l.contains '\n') = true →
        splitlinesL ((ls.map fun l => l ++ ['\n']).join) = ls) := by
  refine ⟨?_, fun output => rfl, ?_⟩
  · intro o e
    have h1 := (readMux_buffers fullSched ⟨o, e, [], []⟩).1
    rw [readMux_full ⟨o, e, [], []⟩] at h1
    simp only at h1
    unfold iterOpenChunks
    rw [join_filter_nonempty]
    simpa using h1.symm
  · intro ls hls
    induction ls with
    | nil => simp [splitlinesL]
    | cons l t ih =>
      simp only [List.all_cons, Bool.and_eq_true, Bool.not_eq_true'] at hls
      have hstep : ((l :: t).map fun x => x ++ ['\n']).join
          = l ++ '\n' :: ((t.map fun x => x ++ ['\n']).join) := by
        simp
      rw [hstep, splitlinesL_line l _ hls.1, ih hls.2]

/-- C5 counterexample: a command whose whole stdout "a\nb\n" arrives in one
chunk: pre-closure iteration yields the single item "a\nb\n" while the
post-closure replay yields "a" then "b" - the two item sequences differ. -/
theorem iter_items_cex :
    iterOpenItems ['a', '\n', 'b', '\n'] [] = ["a\nb\n"]
    ∧ iterClosedItems ['a', '\n', 'b', '\n'] = ["a", "b"]
    ∧ (["a\nb\n"] : List String) ≠ ["a", "b"] := by
  refine ⟨?_, by decide, by decide⟩
  have h2 : readMux fullSched ⟨[], [], ['a', '\n', 'b', '\n'], []⟩
      = ([], ⟨[], [], ['a', '\n', 'b', '\n'], []⟩) :=
    readMux_step_true _ _ (by decide)
  have h1 : readMux fullSched ⟨['a', '\n', 'b', '\n'], [], [], []⟩
      = ([(['a', '\n', 'b', '\n'], [])],
          ⟨[], [], ['a', '\n', 'b', '\n'], []⟩) := by
    rw [readMux_step_false _ _ (by decide)]
    rw [show muxNext ⟨['a', '\n', 'b', '\n'], [], [], []⟩
        (muxChunks fullSched ⟨['a', '\n', 'b', '\n'], [], [], []⟩)
        = ⟨[], [], ['a', '\n', 'b', '\n'], []⟩ from by decide]
    rw [h2]
    decide
  unfold iterOpenItems iterOpenChunks
  rw [h1]
  decide

theorem iter_open_closed_spec_witness :
    (([['a'], ['b']] : List (List Char)).all fun l => !l.contains '\n') = true
    ∧ splitlinesL ((([['a'], ['b']] : List (List Char)).map fun l => l ++ ['\n']).join)
        = [['a'], ['b']] :=
  ⟨by decide, iter_open_closed_spec.2.2 [['a'], ['b']] (by decide)⟩

theorem waitDrain_closed (rc : RC) : (waitDrain rc).closed = rc.closed := by
  unfold waitDrain
  split <;> rfl

theorem waitDrain_stdoutOpen (rc : RC) :
    (waitDrain rc).stdoutOpen = rc.stdoutOpen := by
  unfold waitDrain
  split <;> rfl

theorem waitDrain_stderrOpen (rc : RC) :
    (waitDrain rc).stderrOpen = rc.stderrOpen := by
  unfold waitDrain
  split <;> rfl

theorem waitDrain_returncode (rc : RC) :
    (waitDrain rc).returncode = rc.returncode := by
  unfold waitDrain
  split <;> rfl

theorem waitDrain_name (rc : RC) : (waitDrain rc).name = rc.name := by
  unfold waitDrain
  split <;> rfl

theorem waitDrain_open (rc : RC) (h : rc.closed = false) :
    waitDrain rc =
      { rc with
        output := rc.output ++ rc.pendingOut
        errbuf := rc.errbuf ++ rc.pendingErr
        pendingOut := []
        pendingErr := [] } := by
  unfold waitDrain
  simp [h]

theorem waitDrain_waitDrain (rc : RC) :
    waitDrain (waitDrain rc) = waitDrain rc := by
  by_cases h : rc.closed = true
  · unfold waitDrain
    simp [h]
  · have h' : rc.closed = false := by
      cases hb : rc.closed
      · rfl
      · exact absurd hb h
    rw [waitDrain_open rc h', waitDrain_open _ (by simp [h'])]
    simp

theorem waitDrain_wf (rc : RC) (h : WellFormedRC rc) :
    WellFormedRC (waitDrain rc) := by
  unfold WellFormedRC at *
  intro hcl
  rw [waitDrain_closed] at hcl
  rw [waitDrain_stdoutOpen, waitDrain_stderrOpen]
  exact h hcl

theorem closeRC_fullyClosed (rc : RC) (h : WellFormedRC rc) :
    FullyClosed (closeRC rc) := by
  unfold WellFormedRC at h
  unfold closeRC FullyClosed
  split
  · rename_i hcl
    exact ⟨hcl, h hcl⟩
  · exact ⟨rfl, rfl, rfl⟩

theorem checkExceptionOp_closes (rc : RC) (h : WellFormedRC rc) :
    FullyClosed (checkExceptionOp rc).2 := by
  unfold checkExceptionOp readErrorOp
  dsimp only
  split
  · exact closeRC_fullyClosed _ (waitDrain_wf _ (waitDrain_wf _ h))
  · exact closeRC_fullyClosed _ (waitDrain_wf _ h)

theorem checkExceptionOp_waitDrain (rc : RC) :
    checkExceptionOp (waitDrain rc) = checkExceptionOp rc := by
  unfold checkExceptionOp readErrorOp
  rw [waitDrain_waitDrain]

theorem checkExceptionOp_error (rc : RC) (hcl : rc.closed = false)
    (h0 : rc.returncode ≠ 0) (h1 : rc.returncode ∉ IGNORED_ERROR_CODES) :
    (checkExceptionOp rc).1 = .error (drainedError rc) := by
  unfold checkExceptionOp readErrorOp
  rw [if_pos (by rw [waitDrain_returncode]; exact ⟨h0, h1⟩)]
  simp only [drainedError]
  rw [waitDrain_waitDrain, waitDrain_open rc hcl]

theorem checkExceptionOp_ok (rc : RC)
    (h : ¬(rc.returncode ≠ 0 ∧ rc.returncode ∉ IGNORED_ERROR_CODES)) :
    (checkExceptionOp rc).1 = .ok () := by
  unfold checkExceptionOp
  rw [if_neg (by rw [waitDrain_returncode]; exact h)]

/-- C3 (corrected): a command exiting with a non-zero code outside the
ignored set makes every forcing operation - iteration, bytes/text coercion,
explicit wait, scope exit, print - raise a ShellCommandException whose full
stderr text is exactly the decoded captured stderr and whose short message
is that text with every newline flattened to a space (so a trailing newline
becomes a trailing space). -/
theorem shell_exception_spec (rc : RC) (hcl : rc.closed = false)
    (h0 : rc.returncode ≠ 0) (h1 : rc.returncode ∉ IGNORED_ERROR_CODES) :
    (checkExceptionOp rc).1 = .error (drainedError rc)
    ∧ (waitOp rc).1 = .error (drainedError rc)
    ∧ (bytesCoerce rc).1 = .error (drainedError rc)
    ∧ (strCoerce rc).1 = .error (drainedError rc)
    ∧ (iterOp rc).1 = .error (drainedError rc)
    ∧ (exitOp rc).1 = .error (drainedError rc)
    ∧ (printOp rc).1 = .error (drainedError rc)
    ∧ (drainedError rc).error = String.mk (rc.errbuf ++ rc.pendingErr)
    ∧ (drainedError rc).msg
        = replaceNewlines (String.mk (rc.errbuf ++ rc.pendingErr)) := by
  have hE := checkExceptionOp_error rc hcl h0 h1
  have hEw : (checkExceptionOp (waitDrain rc)).1 = .error (drainedError rc) := by
    rw [checkExceptionOp_waitDrain]
    exact hE
  refine ⟨hE, hE, ?_, ?_, ?_, ?_, hE, rfl, rfl⟩
  · unfold bytesCoerce readOutputOp
    dsimp only
    rw [hEw]
  · unfold strCoerce bytesCoerce readOutputOp
    dsimp only
    rw [hEw]
  · unfold iterOp
    rw [if_neg (by simp [hcl])]
    dsimp only
    rw [hEw]
  · unfold exitOp
    rw [if_neg (by simp [hcl])]
    exact hE

theorem shell_exception_spec_witness :
    (checkExceptionOp rcBoom).1 = .error (drainedError rcBoom)
    ∧ (waitOp rcBoom).1 = .error (drainedError rcBoom)
    ∧ (bytesCoerce rcBoom).1 = .error (drainedError rcBoom)
    ∧ (strCoerce rcBoom).1 = .error (drainedError rcBoom)
    ∧ (iterOp rcBoom).1 = .error (drainedError rcBoom)
    ∧ (exitOp rcBoom).1 = .error (drainedError rcBoom)
    ∧ (printOp rcBoom).1 = .error (drainedError rcBoom)
    ∧ (drainedError rcBoom).error = String.mk (rcBoom.errbuf ++ rcBoom.pendingErr)
    ∧ (drainedError rcBoom).msg
        = replaceNewlines (String.mk (rcBoom.errbuf ++ rcBoom.pendingErr)) :=
  shell_exception_spec rcBoom (by decide) (by decide) (by decide)

/-- C3 counterexample: for exit code 2 and stderr "boom" followed by a
newline, the raised exception's full stderr is "boom\n" but its short
message is "boom " - the trailing newline is flattened to a trailing
space - and not "boom" as the claim states. -/
theorem boom_msg_cex :
    (checkExceptionOp rcBoom).1 = .error (mkShellCommandException "boom\n")
    ∧ (mkShellCommandException "boom\n").error = "boom\n"
    ∧ (mkShellCommandException "boom\n").msg = "boom "
    ∧ (mkShellCommandException "boom\n").msg ≠ "boom" := by
  refine ⟨?_, by decide, by decide, by decide⟩
  rw [checkExceptionOp_error rcBoom rfl (by decide) (by decide)]
  rfl

/-- C4 (confirmed): boolean coercion reports exactly whether the exit code
is 0, independently of the captured stdout and stderr content, and it never
raises: `__bool__` routes through `_check`, which has no raise path, so the
outcome is always `ok`. -/
theorem bool_coercion_spec :
    (∀ rc : RC, (boolCoerce rc).1 = .ok (decide (rc.returncode = 0)))
    ∧ (∀ rc : RC, ((checkOp rc).1 = true ↔ rc.returncode = 0))
    ∧ (∀ (rc : RC) (v w x y : List Char),
        (checkOp
          { rc with
            output := x
            errbuf := v
            pendingOut := y
            pendingErr := w }).1 = (checkOp rc).1) := by
  have hck : ∀ rc : RC, (checkOp rc).1 = (rc.returncode == 0) := by
    intro rc
    unfold checkOp
    dsimp only
    rw [waitDrain_returncode]
  refine ⟨?_, ?_, ?_⟩
  · intro rc
    unfold boolCoerce
    rw [hck rc]
    have hbd : (rc.returncode == 0) = decide (rc.returncode = 0) := by
      cases hd : decide (rc.returncode = 0)
      · simp [of_decide_eq_false hd]
      · simp [of_decide_eq_true hd]
    rw [hbd]
  · intro rc
    rw [hck rc]
    simp
  · intro rc v w x y
    rw [hck, hck]

/-- C7 (confirmed): discarding a still-open RunningCommand first runs the
drain-and-check, surfacing a ShellCommandException when the command failed
with a non-zero non-ignored code, and otherwise raises a
CommandIgnoredException whose message names the command. -/
theorem del_spec (rc : RC) (hcl : rc.closed = false) :
    (delOp rc).1 = .error
      (if rc.returncode ≠ 0 ∧ rc.returncode ∉ IGNORED_ERROR_CODES
        then .inl (drainedError rc)
        else .inr (mkCommandIgnoredException rc.name))
    ∧ (mkCommandIgnoredException rc.name).msg
        = "Command " ++ rc.name ++ " disposed without being waited" := by
  refine ⟨?_, rfl⟩
  unfold delOp
  rw [if_neg (by simp [hcl])]
  dsimp only
  by_cases hcond : rc.returncode ≠ 0 ∧ rc.returncode ∉ IGNORED_ERROR_CODES
  · rw [if_pos hcond]
    have hE := checkExceptionOp_error rc hcl hcond.1 hcond.2
    rw [hE]
  · rw [if_neg hcond]
    have hO := checkExceptionOp_ok rc hcond
    rw [hO]

theorem del_spec_witness :
    (delOp rcZero).1 = .error
      (if rcZero.returncode ≠ 0 ∧ rcZero.returncode ∉ IGNORED_ERROR_CODES
        then .inl (drainedError rcZero)
        else .inr (mkCommandIgnoredException rcZero.name))
    ∧ (mkCommandIgnoredException rcZero.name).msg
        = "Command " ++ rcZero.name ++ " disposed without being waited" :=
  del_spec rcZero (by decide)

/-- C10 (confirmed): every consuming operation - iteration to exhaustion,
bytes or text coercion, boolean check, explicit wait, print, and
context-manager exit - leaves the instance with both pipe handles closed and
the closed flag set, on the ok path and the exception path alike. -/
theorem close_after_ops_spec (rc : RC) (h : WellFormedRC rc) :
    FullyClosed (iterOp rc).2 ∧ FullyClosed (bytesCoerce rc).2
    ∧ FullyClosed (strCoerce rc).2 ∧ FullyClosed (boolCoerce rc).2
    ∧ FullyClosed (waitOp rc).2 ∧ FullyClosed (printOp rc).2
    ∧ FullyClosed (exitOp rc).2 := by
  have hbytes : FullyClosed (bytesCoerce rc).2 := by
    unfold bytesCoerce readOutputOp
    have hc := checkExceptionOp_closes (waitDrain rc) (waitDrain_wf rc h)
    cases hE : (checkExceptionOp (waitDrain rc)).1 <;> simp [hE] <;> exact hc
  refine ⟨?_, hbytes, ?_, ?_, checkExceptionOp_closes rc h,
    checkExceptionOp_closes rc h, ?_⟩
  · unfold iterOp
    by_cases hcl : rc.closed = true
    · rw [if_pos hcl]
      have hc := checkExceptionOp_closes rc h
      cases hE : (checkExceptionOp rc).1 <;> simp [hE] <;> exact hc
    · rw [if_neg hcl]
      have hc := checkExceptionOp_closes (waitDrain rc) (waitDrain_wf rc h)
      cases hE : (checkExceptionOp (waitDrain rc)).1 <;> simp [hE] <;> exact hc
  · unfold strCoerce
    cases hE : (bytesCoerce rc).1 <;> simp [hE] <;> exact hbytes
  · unfold boolCoerce checkOp
    exact closeRC_fullyClosed _ (waitDrain_wf rc h)
  · unfold exitOp
    by_cases hcl : rc.closed = true
    · rw [if_pos hcl]
      exact ⟨hcl, h hcl⟩
    · rw [if_neg hcl]
      exact checkExceptionOp_closes rc h

theorem close_after_ops_spec_witness :
    WellFormedRC rcZero ∧
    (FullyClosed (iterOp rcZero).2 ∧ FullyClosed (bytesCoerce rcZero).2
    ∧ FullyClosed (strCoerce rcZero).2 ∧ FullyClosed (boolCoerce rcZero).2
    ∧ FullyClosed (waitOp rcZero).2 ∧ FullyClosed (printOp rcZero).2
    ∧ FullyClosed (exitOp rcZero).2) :=
  ⟨by intro hcl; exact absurd hcl (by decide),
    close_after_ops_spec rcZero (by intro hcl; exact absurd hcl (by decide))⟩

/-- C2 (corrected): a boolean option value - true or false alike - emits
exactly the bare flag (a single-character key k becomes -k, a longer key
becomes --key with underscores replaced by hyphens) with no attached value;
only a None value or an absent option emits nothing into the built argument
vector. -/
theorem bool_option_spec :
    (∀ (k : String) (b : Bool), encodeValue k (.vbool b) = some (flagOf k))
    ∧ (∀ k : String, encodeValue k .vnone = none)
    ∧ encodeValue "foo_bar" (.vbool true) = some "--foo-bar"
    ∧ encodeValue "x" (.vbool true) = some "-x"
    ∧ buildArgv "cmd" [("foo_bar", .scalar (.vbool true))] [] = ["cmd", "--foo-bar"]
    ∧ buildArgv "cmd" [] [] = ["cmd"] := by
  refine ⟨fun k b => rfl, fun k => rfl, by decide, by decide, by decide, by decide⟩

/-- C2 counterexample: an option with boolean value false emits the bare
flag rather than nothing: verbose=False builds the argument vector
["cmd", "--verbose"], not ["cmd"] - only None is skipped by the builder. -/
theorem bool_false_flag_cex :
    buildArgv "cmd" [("verbose", .scalar (.vbool false))] [] = ["cmd", "--verbose"]
    ∧ (["cmd", "--verbose"] : List String) ≠ ["cmd"] :=
  ⟨by decide, by decide⟩

/-- C6 (confirmed): a list-valued keyword option contributes the flag once
per non-None element, in list order and contiguously at the entry's position
in the vector; each long flag is joined to the stringified element with "="
and each single-character flag is directly concatenated; None elements are
skipped, and the example vector contains no other occurrence of the flag. -/
theorem list_option_spec :
    (∀ (commandName k : String) (kw1 kw2 : List (String × KwVal))
        (l : List PyVal) (args : List PyVal),
      buildArgv commandName (kw1 ++ (k, KwVal.vlist l) :: kw2) args
        = commandName :: ((kw1.flatMap fun p => encodeEntry p.1 p.2)
            ++ l.filterMap (encodeValue k)
            ++ (kw2.flatMap fun p => encodeEntry p.1 p.2)
            ++ args.filterMap posStr))
    ∧ (∀ s : String, encodeValue "tag" (.vstr s) = some ("--tag=" ++ s))
    ∧ (∀ s : String, encodeValue "k" (.vstr s) = some ("-k" ++ s))
    ∧ (∀ k : String, encodeValue k .vnone = none)
    ∧ buildArgv "c" [("tag", .vlist [.vstr "a", .vnone, .vstr "b"])] []
        = ["c", "--tag=a", "--tag=b"]
    ∧ (["c", "--tag=a", "--tag=b"].filter fun s => startsWithL "--tag".data s.data)
        = ["--tag=a", "--tag=b"] := by
  refine ⟨?_, fun s => rfl, fun s => rfl, fun k => rfl, by decide, by decide⟩
  intro commandName k kw1 kw2 l args
  simp [buildArgv, encodeEntry, List.append_assoc]

/-- C8 (confirmed): parse splits the drained text into lines and lines into
whitespace tokens, coerces each token to an integer, else a float, else
text; a one-token line contributes the scalar, a multi-token line the row, a
token-free line nothing; the result is the empty marker when nothing was
produced, the single value when exactly one was, and the ordered list of
per-line values otherwise - in particular parse of "1 2\n3\nfoo bar\n"
yields [[1, 2], 3, ["foo", "bar"]] and parse of "" yields the empty
marker. -/
theorem parse_output_spec :
    parseOutput "1 2\n3\nfoo bar\n"
      = .pseq [.prow [.bint 1, .bint 2], .pbase (.bint 3),
          .prow [.bstr "foo", .bstr "bar"]]
    ∧ parseOutput "" = .pnone
    ∧ parseOutput "1.5" = .pvalue (.pbase (.bfloat "1.5"))
    ∧ (∀ output : String, lineValues output = [] → parseOutput output = .pnone)
    ∧ (∀ (output : String) (v : PItem),
        lineValues output = [v] → parseOutput output = .pvalue v)
    ∧ (∀ (output : String) (l : List PItem),
        lineValues output = l → 2 ≤ l.length → parseOutput output = .pseq l)
    ∧ (∀ line : List Char, tokensOf line = [] → parseLineVal line = none) := by
  refine ⟨by decide, by decide, by decide, ?_, ?_, ?_, ?_⟩
  · intro output h
    simp [parseOutput, h]
  · intro output v h
    simp [parseOutput, h]
  · intro output l h hl
    subst h
    unfold parseOutput
    rcases hv : lineValues output with _ | ⟨a, _ | ⟨b, t⟩⟩
    · rw [hv] at hl
      simp at hl
    · rw [hv] at hl
      simp at hl
    · rfl
  · intro line h
    simp [parseLineVal, h]

theorem parse_output_spec_witness :
    lineValues "7" = [.pbase (.bint 7)]
    ∧ parseOutput "7" = .pvalue (.pbase (.bint 7))
    ∧ tokensOf [' '] = []
    ∧ parseLineVal [' '] = none :=
  ⟨by decide, parse_output_spec.2.2.2.2.1 "7" _ (by decide), by decide,
    parse_output_spec.2.2.2.2.2.2 [' '] (by decide)⟩

/-- C9 (code bug): the source declares the default working directory as
`_cwd: str = getcwd()`, which Python evaluates once at module import; a call
made after the caller changes directory therefore launches the child in the
import-time directory, not the directory current at call time - here a
process imported under "/a" and invoked with no explicit directory while the
caller sits in "/b" is launched in "/a". -/
theorem cwd_default_demo :
    spawnedCwd none "/a" "/b" = "/a"
    ∧ ("/a" : String) ≠ "/b"
    ∧ (∀ explicitC importC callC : String,
        spawnedCwd (some explicitC) importC callC = explicitC)
    ∧ (∀ importC c1 c2 : String,
        spawnedCwd none importC c1 = spawnedCwd none importC c2) :=
  ⟨rfl, by decide, fun _ _ _ => rfl, fun _ _ _ => rfl⟩

end Scriptutil
